import Mathlib

/-!
Verification of the concurrent per-pixel rendering pipeline of `cpurender2`.

The development shallowly embeds the two source files that form the core:

* `src/frag.rs` — `fragment` and `fragment_stateful`, which enumerate the
  coordinate domain `[0, x_size) × [0, y_size)`, invoke the caller-supplied
  fragment function at each coordinate (cast with Rust `as i32` semantics),
  and push one `Paint` instruction per coordinate; and
* `src/window.rs` — the `Paint` struct, the canvas buffer of `[u8; 4]`
  entries initialized to transparent black, the drain loop writing each
  popped instruction at flat index `y * x_size + x`, the event-poll match
  deciding shutdown, and the fallible setup steps preceding the loop.

Machine integers are modelled as `Nat`/`Int`, with the `usize → i32` cast
made explicit; `u8` values are `Fin 256`.  The parallel rayon iteration
delivers instructions in an unspecified order, so theorems about delivery
quantify over permutations (and sub-multisets, for intermediate states) of
the canonical dispatch list.
-/

namespace Cpurender2

/-- One byte, the `u8` type of the source. -/
abbrev Byte : Type := Fin 256

/-- An RGBA color with `u8` channels, as in `vek::Rgba<u8>`: the output type
of a caller-supplied fragment function. -/
structure Rgba where
  r : Byte
  g : Byte
  b : Byte
  a : Byte
deriving DecidableEq

/-- A canvas entry: the `[u8; 4]` element type of the canvas buffer texture
in `window.rs`, laid out as `[r, g, b, a]`. -/
abbrev Rgba4 : Type := Byte × Byte × Byte × Byte

/-- Instruction to paint a single pixel (`Paint` in `window.rs`). -/
structure Paint where
  x : Nat
  y : Nat
  r : Byte
  g : Byte
  b : Byte
  a : Byte
deriving DecidableEq

/-- The Rust `as` cast from `usize` (modelled as an unbounded `Nat`) to
`i32`: truncate modulo `2 ^ 32`, then reinterpret in `[-2 ^ 31, 2 ^ 31)`. -/
def usizeToI32 (n : Nat) : Int :=
  if n % 2 ^ 32 < 2 ^ 31 then ((n % 2 ^ 32 : Nat) : Int)
  else ((n % 2 ^ 32 : Nat) : Int) - 2 ^ 32

/-- The stream of `(x, y)` index pairs built by `fragment_stateful`:
`(0..x_size).flat_map(|x| (0..y_size).map(move |y| (x, y)))`. -/
def domainList (xSize ySize : Nat) : List (Nat × Nat) :=
  (List.range xSize).flatMap (fun x => (List.range ySize).map (fun y => (x, y)))

/-- The `i32` coordinates at which `fragment_stateful` invokes the fragment
function: `Vec2::new(x as i32, y as i32)` for each pair of the domain
stream. -/
def dispatchCoords (xSize ySize : Nat) : List (Int × Int) :=
  (domainList xSize ySize).map (fun xy => (usizeToI32 xy.1, usizeToI32 xy.2))

/-- The paint instruction pushed for one `(x, y)` pair of the domain stream:
evaluate the fragment function at the cast coordinate with read access to the
shared state, and package coordinate and color channels
(`queue.push(Paint { x, y, r, g, b, a })`). -/
def paintAt {S : Type} (state : S) (fragment : Int × Int → S → Rgba)
    (xy : Nat × Nat) : Paint :=
  let color := fragment (usizeToI32 xy.1, usizeToI32 xy.2) state
  { x := xy.1, y := xy.2, r := color.r, g := color.g, b := color.b, a := color.a }

/-- The multiset of paint instructions produced by one dispatch of
`fragment_stateful`, listed in the canonical domain order.  Rayon delivers
them in an unspecified order, so claims about delivery quantify over
permutations of this list. -/
def dispatchPaints {S : Type} (xSize ySize : Nat) (state : S)
    (fragment : Int × Int → S → Rgba) : List Paint :=
  (domainList xSize ySize).map (paintAt state fragment)

/-- The paint instructions produced by the stateless entry point `fragment`,
which delegates to `fragment_stateful` with unit state and the wrapper
closure `move |xy, ()| fragment(xy)`. -/
def fragmentPaints (xSize ySize : Nat) (fragment : Int × Int → Rgba) : List Paint :=
  dispatchPaints xSize ySize () (fun xy _ => fragment xy)

/-- The canvas buffer created in `open_window`: `x_size * y_size` entries,
each initialized to `[0x00, 0x00, 0x00, 0x00]`. -/
def initialCanvas (xSize ySize : Nat) : List Rgba4 :=
  List.replicate (xSize * ySize) (0, 0, 0, 0)

/-- Applying one popped paint instruction to the canvas: write `[r, g, b, a]`
at flat index `y * x_size + x` (the drain loop body in `open_window`). -/
def applyPaint (xSize : Nat) (canvas : List Rgba4) (p : Paint) : List Rgba4 :=
  canvas.set (p.y * xSize + p.x) (p.r, p.g, p.b, p.a)

/-- Draining a sequence of paint instructions popped from the queue into the
canvas, in the order they were popped. -/
def drainPaints (xSize : Nat) (canvas : List Rgba4) (ps : List Paint) : List Rgba4 :=
  ps.foldl (applyPaint xSize) canvas

/-- Modifier state of a keyboard input (`glutin::ModifiersState`). -/
structure ModifiersState where
  shift : Bool
  ctrl : Bool
  alt : Bool
  logo : Bool
deriving DecidableEq

/-- Virtual keycodes, collapsed to the only keycode `open_window` inspects
(`W`) versus all others. -/
inductive VKey
  | w
  | otherKey
deriving DecidableEq

/-- A keyboard input: an optional keycode plus modifiers
(`glutin::KeyboardInput`). -/
structure KeyboardInput where
  virtual_keycode : Option VKey
  modifiers : ModifiersState
deriving DecidableEq

/-- The events distinguished by the poll step of `open_window`: a window
close request, a device-level key event, a window-level keyboard input, and
everything else. -/
inductive Event
  | windowCloseRequested
  | deviceKey (input : KeyboardInput)
  | windowKeyboardInput (input : KeyboardInput)
  | otherEvent
deriving DecidableEq

/-- The event match in `open_window`'s poll step: given the current value of
the `open` flag and one pending event, return the new value of the flag.  The
match arms are in source order: close request, cmd+W as device or window
event, ctrl+W as device or window event, and a catch-all that leaves the flag
unchanged. -/
def handleEvent (op : Bool) (e : Event) : Bool :=
  match e with
  | .windowCloseRequested => false
  | .deviceKey ⟨some .w, ⟨_, _, _, true⟩⟩ => false
  | .windowKeyboardInput ⟨some .w, ⟨_, _, _, true⟩⟩ => false
  | .deviceKey ⟨some .w, ⟨_, true, _, _⟩⟩ => false
  | .windowKeyboardInput ⟨some .w, ⟨_, true, _, _⟩⟩ => false
  | _ => op

/-- `events_loop.poll_events(...)`: the handler closure is applied to each
pending event in order, threading the `open` flag through. -/
def pollEvents (op : Bool) (events : List Event) : Bool :=
  events.foldl handleEvent op

/-- The observable steps of one iteration of the presentation loop. -/
inductive LoopAction
  | render
  | drainStep
  | pollStep
deriving DecidableEq

/-- The presentation loop of `open_window` (`while open { render; drain;
poll }`), run against a schedule assigning to each iteration the list of
events pending at its poll step; returns the trace of actions performed over
the iterations the schedule covers. -/
def runIters (op : Bool) : List (List Event) → List LoopAction
  | [] => []
  | evs :: rest =>
    if op then
      .render :: .drainStep :: .pollStep :: runIters (pollEvents op evs) rest
    else []

/-- The fallible setup steps of `open_window`, in source order; each result
is unwrapped with `expect`, which aborts the process on failure. -/
inductive SetupStep
  | displayCreation
  | vertexBufferCreation
  | indexBufferCreation
  | programCreation
  | canvasBufferTextureCreation
deriving DecidableEq

/-- Whole-run model of `open_window`: given which setup steps succeed and the
event schedule, return `none` when a setup `expect` aborts the process (all
setup steps precede the presentation loop, so no loop action has happened),
or `some` trace of the presentation loop when setup succeeds. -/
def openWindowRun (ok : SetupStep → Bool) (schedule : List (List Event)) :
    Option (List LoopAction) :=
  if ok .displayCreation then
    if ok .vertexBufferCreation then
      if ok .indexBufferCreation then
        if ok .programCreation then
          if ok .canvasBufferTextureCreation then
            some (runIters true schedule)
          else none
        else none
      else none
    else none
  else none

/-! ### Facts about the coordinate domain and the dispatch list -/

lemma usizeToI32_of_lt {n : Nat} (h : n < 2 ^ 31) : usizeToI32 n = (n : Int) := by
  have h32 : n < 2 ^ 32 := lt_trans h (by norm_num)
  unfold usizeToI32
  rw [Nat.mod_eq_of_lt h32, if_pos h]

lemma mem_domainList {w h : Nat} {xy : Nat × Nat} :
    xy ∈ domainList w h ↔ xy.1 < w ∧ xy.2 < h := by
  obtain ⟨x, y⟩ := xy
  simp only [domainList, List.mem_flatMap, List.mem_map, List.mem_range, Prod.mk.injEq]
  constructor
  · rintro ⟨a, ha, b, hb, rfl, rfl⟩
    exact ⟨ha, hb⟩
  · rintro ⟨hx, hy⟩
    exact ⟨x, hx, y, hy, rfl, rfl⟩

lemma nodup_domainList (w h : Nat) : (domainList w h).Nodup := by
  unfold domainList
  rw [List.nodup_flatMap]
  constructor
  · intro x _
    exact (List.nodup_range h).map fun a b hab => by simpa using hab
  · refine (List.pairwise_lt_range w).imp ?_
    intro a b hab
    intro z hza hzb
    simp only [List.mem_map, List.mem_range] at hza hzb
    obtain ⟨y1, _, rfl⟩ := hza
    obtain ⟨y2, _, hz⟩ := hzb
    exact Nat.ne_of_lt hab (congrArg Prod.fst hz).symm

lemma countP_eq_one_of_nodup {α : Type} {l : List α} (d : l.Nodup) {z : α}
    (hz : z ∈ l) (p : α → Bool) (hp : ∀ u ∈ l, p u = true ↔ u = z) :
    l.countP p = 1 := by
  induction l with
  | nil => cases hz
  | cons a t ih =>
    have hat : a ∉ t := (List.nodup_cons.mp d).1
    rcases List.mem_cons.mp hz with hza | hzt
    · have ht : t.countP p = 0 := List.countP_eq_zero.mpr (by
        intro u hu hpu
        have huz : u = z := (hp u (List.mem_cons_of_mem a hu)).mp hpu
        rw [huz, hza] at hu
        exact hat hu)
      have hpa : p a = true := (hp a (List.mem_cons_self a t)).mpr hza.symm
      simp [List.countP_cons, ht, hpa]
    · have haz : a ≠ z := fun hne => hat (hne ▸ hzt)
      have ht : t.countP p = 1 :=
        ih (List.nodup_cons.mp d).2 hzt fun u hu => hp u (List.mem_cons_of_mem a hu)
      cases hq : p a with
      | false => simp [List.countP_cons, hq, ht]
      | true => exact absurd ((hp a (List.mem_cons_self a t)).mp hq) haz

lemma length_domainList (w h : Nat) : (domainList w h).length = w * h := by
  induction w with
  | zero => simp [domainList]
  | succ n ih =>
    have hsplit : domainList (n + 1) h
        = domainList n h ++ (List.range h).map (fun y => (n, y)) := by
      unfold domainList
      rw [List.range_succ, List.flatMap_append]
      simp
    rw [hsplit, List.length_append, ih, List.length_map, List.length_range]
    ring

lemma flatIndex_lt {w h x y : Nat} (hx : x < w) (hy : y < h) :
    y * w + x < w * h := by
  have h1 : y * w + x < (y + 1) * w := by
    calc y * w + x < y * w + w := by omega
      _ = (y + 1) * w := by ring
  have h2 : (y + 1) * w ≤ h * w := Nat.mul_le_mul_right w (Nat.succ_le_of_lt hy)
  calc y * w + x < (y + 1) * w := h1
    _ ≤ h * w := h2
    _ = w * h := Nat.mul_comm h w

lemma flatIndex_inj {w x x' y y' : Nat} (hx : x < w) (hx' : x' < w)
    (heq : y * w + x = y' * w + x') : x = x' ∧ y = y' := by
  have hw : 0 < w := Nat.lt_of_le_of_lt (Nat.zero_le x) hx
  have hmod : (y * w + x) % w = x := by
    rw [Nat.mul_comm y w, Nat.mul_add_mod, Nat.mod_eq_of_lt hx]
  have hmod' : (y' * w + x') % w = x' := by
    rw [Nat.mul_comm y' w, Nat.mul_add_mod, Nat.mod_eq_of_lt hx']
  have hxx : x = x' := by rw [← hmod, ← hmod', heq]
  refine ⟨hxx, ?_⟩
  subst hxx
  have : y * w = y' * w := by omega
  exact Nat.eq_of_mul_eq_mul_right hw this

/-- The `[r, g, b, a]` canvas entry written for a computed color. -/
def rgbaOf (c : Rgba) : Rgba4 := (c.r, c.g, c.b, c.a)

lemma mem_dispatchPaints {S : Type} {w h : Nat} {state : S}
    {fragment : Int × Int → S → Rgba} {x y : Nat} (hx : x < w) (hy : y < h) :
    paintAt state fragment (x, y) ∈ dispatchPaints w h state fragment :=
  List.mem_map_of_mem _ (mem_domainList.mpr ⟨hx, hy⟩)

lemma of_mem_dispatchPaints {S : Type} {w h : Nat} {state : S}
    {fragment : Int × Int → S → Rgba} {p : Paint}
    (hp : p ∈ dispatchPaints w h state fragment) :
    p.x < w ∧ p.y < h ∧ p = paintAt state fragment (p.x, p.y) := by
  obtain ⟨⟨x, y⟩, hxy, rfl⟩ := List.mem_map.mp hp
  have hm := mem_domainList.mp hxy
  exact ⟨hm.1, hm.2, rfl⟩

lemma length_dispatchPaints {S : Type} (w h : Nat) (state : S)
    (fragment : Int × Int → S → Rgba) :
    (dispatchPaints w h state fragment).length = w * h := by
  rw [dispatchPaints, List.length_map, length_domainList]

lemma countP_coord_dispatchPaints {S : Type} {w h : Nat} (state : S)
    (fragment : Int × Int → S → Rgba) {x y : Nat} (hx : x < w) (hy : y < h) :
    (dispatchPaints w h state fragment).countP
      (fun p => decide (p.x = x ∧ p.y = y)) = 1 := by
  unfold dispatchPaints
  rw [List.countP_map]
  have hmem : (x, y) ∈ domainList w h := mem_domainList.mpr ⟨hx, hy⟩
  refine countP_eq_one_of_nodup (nodup_domainList w h) hmem _ ?_
  intro u _
  obtain ⟨a, b⟩ := u
  simp [paintAt, Function.comp, Prod.ext_iff, and_comm]

lemma countP_index_dispatchPaints {S : Type} {w h : Nat} (state : S)
    (fragment : Int × Int → S → Rgba) {x y : Nat} (hx : x < w) (hy : y < h) :
    (dispatchPaints w h state fragment).countP
      (fun p => decide (p.y * w + p.x = y * w + x)) = 1 := by
  unfold dispatchPaints
  rw [List.countP_map]
  have hmem : (x, y) ∈ domainList w h := mem_domainList.mpr ⟨hx, hy⟩
  refine countP_eq_one_of_nodup (nodup_domainList w h) hmem _ ?_
  intro u hu
  obtain ⟨a, b⟩ := u
  have hm := mem_domainList.mp hu
  simp only [Function.comp_apply, paintAt, decide_eq_true_eq, Prod.mk.injEq]
  constructor
  · intro hidx
    obtain ⟨h1, h2⟩ := flatIndex_inj hm.1 hx hidx
    exact ⟨h1, h2⟩
  · rintro ⟨rfl, rfl⟩
    rfl

/-! ### Facts about draining paint instructions into the canvas -/

lemma length_drainPaints (w : Nat) :
    ∀ (ps : List Paint) (canvas : List Rgba4),
      (drainPaints w canvas ps).length = canvas.length := by
  intro ps
  induction ps with
  | nil => intro canvas; rfl
  | cons p t ih =>
    intro canvas
    show (drainPaints w (applyPaint w canvas p) t).length = canvas.length
    rw [ih, applyPaint, List.length_set]

lemma drainPaints_getElem?_of_not_hit {w i : Nat} :
    ∀ (ps : List Paint) (canvas : List Rgba4),
      (∀ p ∈ ps, p.y * w + p.x ≠ i) →
      (drainPaints w canvas ps)[i]? = canvas[i]? := by
  intro ps
  induction ps with
  | nil => intro canvas _; rfl
  | cons p t ih =>
    intro canvas hmiss
    show (drainPaints w (applyPaint w canvas p) t)[i]? = canvas[i]?
    rw [ih (applyPaint w canvas p) fun q hq => hmiss q (List.mem_cons_of_mem p hq),
      applyPaint, List.getElem?_set_ne (hmiss p (List.mem_cons_self p t))]

lemma drainPaints_getElem?_of_unique {w : Nat} {p : Paint} {i : Nat}
    (hidx : p.y * w + p.x = i) :
    ∀ (ps : List Paint) (canvas : List Rgba4), p ∈ ps →
      ps.countP (fun q => decide (q.y * w + q.x = i)) = 1 →
      i < canvas.length →
      (drainPaints w canvas ps)[i]? = some (p.r, p.g, p.b, p.a) := by
  intro ps
  induction ps with
  | nil => intro canvas hp _ _; cases hp
  | cons q t ih =>
    intro canvas hp hcount hi
    show (drainPaints w (applyPaint w canvas q) t)[i]? = _
    by_cases hq : q.y * w + q.x = i
    · have hct : t.countP (fun r => decide (r.y * w + r.x = i)) = 0 := by
        rw [List.countP_cons,
          if_pos (by simp [hq] : decide (q.y * w + q.x = i) = true)] at hcount
        omega
      have hmiss : ∀ r ∈ t, r.y * w + r.x ≠ i := by
        intro r hr hri
        have : 0 < t.countP (fun s => decide (s.y * w + s.x = i)) :=
          List.countP_pos_iff.mpr ⟨r, hr, by simp [hri]⟩
        omega
      have hpq : p = q := by
        rcases List.mem_cons.mp hp with h1 | h1
        · exact h1
        · exact absurd (hidx ▸ hmiss p h1) (by simp)
      rw [hpq, drainPaints_getElem?_of_not_hit t _ hmiss, applyPaint, hq]
      exact List.getElem?_set_self hi
    · have hpt : p ∈ t := by
        rcases List.mem_cons.mp hp with h1 | h1
        · exact absurd (h1 ▸ hidx) hq
        · exact h1
      have hcount' : t.countP (fun r => decide (r.y * w + r.x = i)) = 1 := by
        rw [List.countP_cons,
          if_neg (by simp [hq] : ¬decide (q.y * w + q.x = i) = true)] at hcount
        omega
      exact ih (applyPaint w canvas q) hpt hcount'
        (by rw [applyPaint, List.length_set]; exact hi)

lemma drainPaints_getElem?_of_hit {w i : Nat} {v : Rgba4} :
    ∀ (ps : List Paint) (canvas : List Rgba4),
      (∀ q ∈ ps, q.y * w + q.x = i → (q.r, q.g, q.b, q.a) = v) →
      (∃ p ∈ ps, p.y * w + p.x = i) →
      i < canvas.length →
      (drainPaints w canvas ps)[i]? = some v := by
  intro ps
  induction ps with
  | nil =>
    rintro canvas _ ⟨p, hp, _⟩ _
    cases hp
  | cons q t ih =>
    intro canvas hval hhit hi
    show (drainPaints w (applyPaint w canvas q) t)[i]? = some v
    by_cases hq : ∃ p ∈ t, p.y * w + p.x = i
    · exact ih _ (fun r hr => hval r (List.mem_cons_of_mem q hr)) hq
        (by rw [applyPaint, List.length_set]; exact hi)
    · have hqi : q.y * w + q.x = i := by
        obtain ⟨p, hp, hpi⟩ := hhit
        rcases List.mem_cons.mp hp with h1 | h1
        · exact h1 ▸ hpi
        · exact absurd ⟨p, h1, hpi⟩ hq
      have hmiss : ∀ r ∈ t, r.y * w + r.x ≠ i := fun r hr hri => hq ⟨r, hr, hri⟩
      rw [drainPaints_getElem?_of_not_hit t _ hmiss, applyPaint, hqi,
        List.getElem?_set_self hi]
      exact congrArg some (hval q (List.mem_cons_self q t) hqi)

lemma countP_coord_dispatchPaints_zero {S : Type} {w h : Nat} (state : S)
    (fragment : Int × Int → S → Rgba) {x y : Nat} (hxy : ¬(x < w ∧ y < h)) :
    (dispatchPaints w h state fragment).countP
      (fun p => decide (p.x = x ∧ p.y = y)) = 0 :=
  List.countP_eq_zero.mpr (by
    intro p hp hpx
    have hm := of_mem_dispatchPaints hp
    simp only [decide_eq_true_eq] at hpx
    exact hxy ⟨hpx.1 ▸ hm.1, hpx.2 ▸ hm.2.1⟩)

/-- After all instructions of one dispatch have been delivered (in any order)
and drained, the canvas entry at flat index `y * w + x` holds the value the
fragment function computed for the coordinate passed for `(x, y)`. -/
lemma drainPaints_perm_getElem? {S : Type} {w h : Nat} {state : S}
    {fragment : Int × Int → S → Rgba} {l : List Paint}
    (hl : l.Perm (dispatchPaints w h state fragment)) {x y : Nat}
    (hx : x < w) (hy : y < h) :
    (drainPaints w (initialCanvas w h) l)[y * w + x]?
      = some (rgbaOf (fragment (usizeToI32 x, usizeToI32 y) state)) := by
  have hcount : l.countP (fun q => decide (q.y * w + q.x = y * w + x)) = 1 := by
    rw [hl.countP_eq]
    exact countP_index_dispatchPaints state fragment hx hy
  have hpmem : paintAt state fragment (x, y) ∈ l :=
    hl.mem_iff.mpr (mem_dispatchPaints hx hy)
  have hi : y * w + x < (initialCanvas w h).length := by
    rw [initialCanvas, List.length_replicate]
    exact flatIndex_lt hx hy
  exact @drainPaints_getElem?_of_unique w (paintAt state fragment (x, y))
    (y * w + x) rfl l (initialCanvas w h) hpmem hcount hi

/-! ### Facts about the event poll and the presentation loop -/

lemma handleEvent_false (e : Event) : handleEvent false e = false := by
  unfold handleEvent
  split <;> rfl

lemma pollEvents_false (events : List Event) : pollEvents false events = false := by
  induction events with
  | nil => rfl
  | cons e t ih =>
    show pollEvents (handleEvent false e) t = false
    rw [handleEvent_false]
    exact ih

lemma pollEvents_eq_false_of_close :
    ∀ (events : List Event) (op : Bool), Event.windowCloseRequested ∈ events →
      pollEvents op events = false := by
  intro events
  induction events with
  | nil =>
    intro op hmem
    cases hmem
  | cons e t ih =>
    intro op hmem
    show pollEvents (handleEvent op e) t = false
    rcases List.mem_cons.mp hmem with h1 | h1
    · rw [← h1]
      exact pollEvents_false t
    · exact ih (handleEvent op e) h1

lemma runIters_false (schedule : List (List Event)) : runIters false schedule = [] := by
  cases schedule with
  | nil => rfl
  | cons evs rest => rfl

/-! ### Facts about the coordinates passed to the fragment function -/

lemma mem_dispatchCoords {w h x y : Nat} (hx : x < w) (hy : y < h) :
    (usizeToI32 x, usizeToI32 y) ∈ dispatchCoords w h := by
  have hmem : (x, y) ∈ domainList w h := mem_domainList.mpr ⟨hx, hy⟩
  exact List.mem_map_of_mem _ hmem

lemma of_mem_dispatchCoords {w h : Nat} {c : Int × Int}
    (hc : c ∈ dispatchCoords w h) :
    ∃ x y, x < w ∧ y < h ∧ c = (usizeToI32 x, usizeToI32 y) := by
  obtain ⟨⟨x, y⟩, hxy, rfl⟩ := List.mem_map.mp hc
  have hm := mem_domainList.mp hxy
  exact ⟨x, y, hm.1, hm.2, rfl⟩

/-! ### Sample fragment functions used as concrete test inputs -/

/-- A sample caller-supplied fragment function: constant green. -/
def constFragment : Int × Int → Unit → Rgba := fun _ _ => ⟨0, 255, 0, 255⟩

/-- A sample caller-supplied fragment function that distinguishes negative
first coordinates: red when `x < 0`, blue otherwise. -/
def signFragment : Int × Int → Unit → Rgba :=
  fun c _ => if c.1 < 0 then ⟨255, 0, 0, 255⟩ else ⟨0, 0, 255, 255⟩

/-! ### The claims -/

/-- C1 (amended): for every width and height at most `2 ^ 31`, after all
worker evaluations have completed and the paint channel has been fully
drained into the canvas (in whatever delivery order), the canvas holds
exactly one color value for every coordinate `(x, y)` with `x < width` and
`y < height` — the entry at flat index `y * width + x` — and that value
equals `f((x, y), &state)`.  (For larger dimensions the `x as i32` cast in
`fragment_stateful` wraps, and the value is `f` of the wrapped coordinate
instead; see the counterexample.) -/
theorem coverage {S : Type} (w h : Nat) (hw : w ≤ 2 ^ 31) (hh : h ≤ 2 ^ 31)
    (state : S) (fragment : Int × Int → S → Rgba) (l : List Paint)
    (hl : l.Perm (dispatchPaints w h state fragment)) :
    (drainPaints w (initialCanvas w h) l).length = w * h ∧
      ∀ x y, x < w → y < h →
        (drainPaints w (initialCanvas w h) l)[y * w + x]?
          = some (rgbaOf (fragment ((x : Int), (y : Int)) state)) := by
  constructor
  · rw [length_drainPaints, initialCanvas, List.length_replicate]
  · intro x y hx hy
    rw [drainPaints_perm_getElem? hl hx hy,
      usizeToI32_of_lt (lt_of_lt_of_le hx hw), usizeToI32_of_lt (lt_of_lt_of_le hy hh)]

/-- C1 witness: at width and height 2 with the constant green fragment, the
fully drained canvas has the green value at coordinate `(1, 1)`. -/
theorem coverage_witness :
    (2 : Nat) ≤ 2 ^ 31 ∧ (1 : Nat) < 2 ∧
      (drainPaints 2 (initialCanvas 2 2)
          (dispatchPaints 2 2 () constFragment))[1 * 2 + 1]?
        = some (rgbaOf (constFragment ((1 : Int), (1 : Int)) ())) :=
  ⟨by decide, by decide,
    ((coverage 2 2 (by decide) (by decide) () constFragment _
      (List.Perm.refl _)).2 1 1 (by decide) (by decide))⟩

/-- C1 counterexample: at width `2 ^ 31 + 1` and height 1, the coordinate
`x = 2 ^ 31` wraps to `-2 ^ 31` under the `as i32` cast, so the drained
canvas entry for `(2 ^ 31, 0)` is the fragment value at the wrapped
coordinate (red under `signFragment`), not `f((2 ^ 31, 0))` (blue) as the
claim states. -/
theorem coverage_counterexample :
    ¬ ((drainPaints (2 ^ 31 + 1) (initialCanvas (2 ^ 31 + 1) 1)
          (dispatchPaints (2 ^ 31 + 1) 1 () signFragment))[0 * (2 ^ 31 + 1) + 2 ^ 31]?
        = some (rgbaOf (signFragment ((2 ^ 31 : Int), (0 : Int)) ()))) := by
  intro hcontra
  have hval := @drainPaints_perm_getElem? Unit (2 ^ 31 + 1) 1 () signFragment
    (dispatchPaints (2 ^ 31 + 1) 1 () signFragment) (List.Perm.refl _)
    (2 ^ 31) 0 (by decide) (by decide)
  rw [hval] at hcontra
  have h1 : usizeToI32 (2 ^ 31) = -(2 ^ 31 : Int) := by decide
  have h2 : usizeToI32 0 = (0 : Int) := by decide
  rw [h1, h2] at hcontra
  have hreq := Option.some.inj hcontra
  revert hreq
  decide

/-- C2: one dispatch produces exactly `width * height` paint instructions:
the dispatch list has length `width * height`, every coordinate of the
domain accounts for exactly one instruction, and no coordinate accounts for
more than one. -/
theorem no_duplication {S : Type} (w h : Nat) (state : S)
    (fragment : Int × Int → S → Rgba) :
    (dispatchPaints w h state fragment).length = w * h ∧
      (∀ x y, x < w → y < h →
        (dispatchPaints w h state fragment).countP
          (fun p => decide (p.x = x ∧ p.y = y)) = 1) ∧
      (∀ x y, (dispatchPaints w h state fragment).countP
          (fun p => decide (p.x = x ∧ p.y = y)) ≤ 1) := by
  refine ⟨length_dispatchPaints w h state fragment,
    fun x y hx hy => countP_coord_dispatchPaints state fragment hx hy, ?_⟩
  intro x y
  by_cases hxy : x < w ∧ y < h
  · rw [countP_coord_dispatchPaints state fragment hxy.1 hxy.2]
  · rw [countP_coord_dispatchPaints_zero state fragment hxy]
    omega

/-- C2 witness: at width and height 2 with the constant green fragment,
there are four instructions and coordinate `(1, 0)` accounts for exactly
one. -/
theorem no_duplication_witness :
    (dispatchPaints 2 2 () constFragment).length = 2 * 2 ∧
      (dispatchPaints 2 2 () constFragment).countP
        (fun p => decide (p.x = 1 ∧ p.y = 0)) = 1 :=
  ⟨(no_duplication 2 2 () constFragment).1,
    (no_duplication 2 2 () constFragment).2.1 1 0 (by decide) (by decide)⟩

/-- C3: the canvas buffer handed to the display backend is a row-major
array of `width * height` 4-byte RGBA entries, and the drain step writes
the paint instruction for `(x, y)` at flat index `y * width + x`: that
entry and no other is updated, with the instruction's `[r, g, b, a]`. -/
theorem canvas_upload_format (w h : Nat) (canvas : List Rgba4) (p : Paint)
    (hlen : canvas.length = w * h) (hidx : p.y * w + p.x < w * h) :
    (initialCanvas w h).length = w * h ∧
      (applyPaint w canvas p)[p.y * w + p.x]? = some (p.r, p.g, p.b, p.a) ∧
      ∀ j, j ≠ p.y * w + p.x → (applyPaint w canvas p)[j]? = canvas[j]? := by
  refine ⟨by rw [initialCanvas, List.length_replicate], ?_, ?_⟩
  · rw [applyPaint]
    exact List.getElem?_set_self (by rw [hlen]; exact hidx)
  · intro j hj
    rw [applyPaint, List.getElem?_set_ne (Ne.symm hj)]

/-- C3 witness: on a 2-by-2 canvas, painting `(1, 0)` green writes flat
index 1 and leaves flat index 0 unchanged. -/
theorem canvas_upload_format_witness :
    (initialCanvas 2 2).length = 2 * 2 ∧
      (applyPaint 2 (initialCanvas 2 2)
        ⟨1, 0, 0, 255, 0, 255⟩)[(0 : Nat) * 2 + 1]? = some (0, 255, 0, 255) ∧
      (applyPaint 2 (initialCanvas 2 2)
        ⟨1, 0, 0, 255, 0, 255⟩)[(0 : Nat)]? = (initialCanvas 2 2)[(0 : Nat)]? := by
  have hres := canvas_upload_format 2 2 (initialCanvas 2 2)
    ⟨1, 0, 0, 255, 0, 255⟩ (by decide) (by decide)
  exact ⟨hres.1, hres.2.1, hres.2.2 0 (by decide)⟩

/-- C4 (amended): for width and height at most `2 ^ 31`, the canvas is
created with `width * height` entries all equal to transparent black, and
after draining any sub-collection of the dispatched instructions (an
arbitrary intermediate point before full drain), every entry is either
still the initial transparent value or the final value `f((x, y), &state)`
for its coordinate — never any other value.  (For larger dimensions the
final value is `f` of the `as i32`-wrapped coordinate instead; see the
counterexample.) -/
theorem progressive_correctness {S : Type} (w h : Nat) (hw : w ≤ 2 ^ 31)
    (hh : h ≤ 2 ^ 31) (state : S) (fragment : Int × Int → S → Rgba)
    (ps : List Paint) (hsub : ps ⊆ dispatchPaints w h state fragment) :
    initialCanvas w h = List.replicate (w * h) ((0 : Byte), 0, 0, 0) ∧
      ∀ x y, x < w → y < h →
        (drainPaints w (initialCanvas w h) ps)[y * w + x]?
            = some ((0 : Byte), 0, 0, 0) ∨
          (drainPaints w (initialCanvas w h) ps)[y * w + x]?
            = some (rgbaOf (fragment ((x : Int), (y : Int)) state)) := by
  refine ⟨rfl, ?_⟩
  intro x y hx hy
  have hi : y * w + x < (initialCanvas w h).length := by
    rw [initialCanvas, List.length_replicate]
    exact flatIndex_lt hx hy
  by_cases hhit : ∃ p ∈ ps, p.y * w + p.x = y * w + x
  · right
    have hval : ∀ q ∈ ps, q.y * w + q.x = y * w + x →
        (q.r, q.g, q.b, q.a) = rgbaOf (fragment (usizeToI32 x, usizeToI32 y) state) := by
      intro q hq hqi
      obtain ⟨hqx, hqy, hqeq⟩ := of_mem_dispatchPaints (hsub hq)
      obtain ⟨hxeq, hyeq⟩ := flatIndex_inj hqx hx hqi
      rw [hqeq]
      simp only [paintAt, rgbaOf, hxeq, hyeq]
    rw [drainPaints_getElem?_of_hit ps _ hval hhit hi,
      usizeToI32_of_lt (lt_of_lt_of_le hx hw), usizeToI32_of_lt (lt_of_lt_of_le hy hh)]
  · left
    have hmiss : ∀ p ∈ ps, p.y * w + p.x ≠ y * w + x :=
      fun p hp hpi => hhit ⟨p, hp, hpi⟩
    rw [drainPaints_getElem?_of_not_hit ps _ hmiss, initialCanvas,
      List.getElem?_replicate_of_lt (flatIndex_lt hx hy)]

/-- C4 witness: at width and height 2 with the constant green fragment,
after draining only the instruction for `(0, 0)`, the entry for `(1, 1)` is
still transparent black (and in particular initial-or-final). -/
theorem progressive_correctness_witness :
    (drainPaints 2 (initialCanvas 2 2)
        [paintAt () constFragment (0, 0)])[1 * 2 + 1]?
          = some ((0 : Byte), 0, 0, 0) ∨
      (drainPaints 2 (initialCanvas 2 2)
        [paintAt () constFragment (0, 0)])[1 * 2 + 1]?
          = some (rgbaOf (constFragment ((1 : Int), (1 : Int)) ())) :=
  (progressive_correctness 2 2 (by decide) (by decide) () constFragment
    [paintAt () constFragment (0, 0)]
    (by intro q hq
        rw [List.mem_singleton.mp hq]
        exact mem_dispatchPaints (by decide) (by decide))).2 1 1 (by decide) (by decide)

/-- C4 counterexample: at width `2 ^ 31 + 1` and height 1, after delivering
only the instruction for `x = 2 ^ 31` (a legitimate intermediate state,
since delivery order is unspecified), the entry for `(2 ^ 31, 0)` is the
fragment value at the `as i32`-wrapped coordinate `(-2 ^ 31, 0)` (red under
`signFragment`) — neither the initial transparent value nor
`f((2 ^ 31, 0))` (blue), contradicting the claim. -/
theorem progressive_correctness_counterexample :
    [paintAt () signFragment (2 ^ 31, 0)]
        ⊆ dispatchPaints (2 ^ 31 + 1) 1 () signFragment ∧
      ¬ ((drainPaints (2 ^ 31 + 1) (initialCanvas (2 ^ 31 + 1) 1)
            [paintAt () signFragment (2 ^ 31, 0)])[0 * (2 ^ 31 + 1) + 2 ^ 31]?
              = some ((0 : Byte), 0, 0, 0) ∨
          (drainPaints (2 ^ 31 + 1) (initialCanvas (2 ^ 31 + 1) 1)
            [paintAt () signFragment (2 ^ 31, 0)])[0 * (2 ^ 31 + 1) + 2 ^ 31]?
              = some (rgbaOf (signFragment ((2 ^ 31 : Int), (0 : Int)) ()))) := by
  constructor
  · intro q hq
    rw [List.mem_singleton.mp hq]
    exact mem_dispatchPaints (by decide) (by decide)
  · have hi : 0 * (2 ^ 31 + 1) + 2 ^ 31 < (initialCanvas (2 ^ 31 + 1) 1).length := by
      rw [initialCanvas, List.length_replicate]
      decide
    have hentry : (drainPaints (2 ^ 31 + 1) (initialCanvas (2 ^ 31 + 1) 1)
        [paintAt () signFragment (2 ^ 31, 0)])[0 * (2 ^ 31 + 1) + 2 ^ 31]?
          = some (rgbaOf (signFragment (usizeToI32 (2 ^ 31), usizeToI32 0) ())) :=
      List.getElem?_set_self hi
    rw [hentry]
    have h1 : usizeToI32 (2 ^ 31) = -(2 ^ 31 : Int) := by decide
    have h2 : usizeToI32 0 = (0 : Int) := by decide
    rw [h1, h2]
    rintro (hcon | hcon) <;> revert hcon <;> decide

/-- C5: entries are monotonically filled in — if an instruction for some
coordinate was among the instructions `ps` already drained, then draining
any batch `qs` of further instructions from the same dispatch leaves that
coordinate's entry exactly as it was; in particular it is never reverted to
the initial transparent value. -/
theorem monotonic_fill {S : Type} (w h : Nat) (state : S)
    (fragment : Int × Int → S → Rgba) (ps qs : List Paint) (p : Paint)
    (hsub : (ps ++ qs).Subperm (dispatchPaints w h state fragment))
    (hp : p ∈ ps) :
    (drainPaints w (drainPaints w (initialCanvas w h) ps) qs)[p.y * w + p.x]?
      = (drainPaints w (initialCanvas w h) ps)[p.y * w + p.x]? := by
  have hpd : p ∈ dispatchPaints w h state fragment :=
    hsub.subset (List.mem_append_left qs hp)
  obtain ⟨hpx, hpy, _⟩ := of_mem_dispatchPaints hpd
  have hcount : (ps ++ qs).countP
      (fun q => decide (q.y * w + q.x = p.y * w + p.x)) ≤ 1 := by
    calc (ps ++ qs).countP (fun q => decide (q.y * w + q.x = p.y * w + p.x))
        ≤ (dispatchPaints w h state fragment).countP
            (fun q => decide (q.y * w + q.x = p.y * w + p.x)) :=
          List.Subperm.countP_le _ hsub
      _ = 1 := countP_index_dispatchPaints state fragment hpx hpy
  rw [List.countP_append] at hcount
  have hps_pos : 0 < ps.countP (fun q => decide (q.y * w + q.x = p.y * w + p.x)) :=
    List.countP_pos_iff.mpr ⟨p, hp, by simp⟩
  have hmiss : ∀ q ∈ qs, q.y * w + q.x ≠ p.y * w + p.x := by
    intro q hq hqi
    have : 0 < qs.countP (fun r => decide (r.y * w + r.x = p.y * w + p.x)) :=
      List.countP_pos_iff.mpr ⟨q, hq, by simp [hqi]⟩
    omega
  exact drainPaints_getElem?_of_not_hit qs _ hmiss

/-- C5 witness: at width 2 and height 1, after draining the instruction for
`(0, 0)`, draining the remaining instruction for `(1, 0)` leaves the entry
for `(0, 0)` unchanged. -/
theorem monotonic_fill_witness :
    (drainPaints 2 (drainPaints 2 (initialCanvas 2 1)
        [paintAt () constFragment (0, 0)])
        [paintAt () constFragment (1, 0)])[(paintAt () constFragment (0, 0)).y * 2
          + (paintAt () constFragment (0, 0)).x]?
      = (drainPaints 2 (initialCanvas 2 1)
          [paintAt () constFragment (0, 0)])[(paintAt () constFragment (0, 0)).y * 2
            + (paintAt () constFragment (0, 0)).x]? :=
  monotonic_fill 2 1 () constFragment
    [paintAt () constFragment (0, 0)] [paintAt () constFragment (1, 0)]
    (paintAt () constFragment (0, 0))
    (by
      have hperm : [paintAt () constFragment (0, 0)] ++ [paintAt () constFragment (1, 0)]
          = dispatchPaints 2 1 () constFragment := by decide
      rw [hperm])
    (List.mem_singleton.mpr rfl)

/-- C6: folding the multiset of instructions produced by one dispatch into
the initial canvas yields the same final canvas for every delivery order. -/
theorem order_independence {S : Type} (w h : Nat) (state : S)
    (fragment : Int × Int → S → Rgba) (l₁ l₂ : List Paint)
    (h1 : l₁.Perm (dispatchPaints w h state fragment))
    (h2 : l₂.Perm (dispatchPaints w h state fragment)) :
    drainPaints w (initialCanvas w h) l₁ = drainPaints w (initialCanvas w h) l₂ := by
  apply List.ext_getElem?
  intro i
  by_cases hi : i < w * h
  · have hw : 0 < w := by
      rcases Nat.eq_zero_or_pos w with h0 | h0
      · subst h0
        simp at hi
      · exact h0
    have hx : i % w < w := Nat.mod_lt i hw
    have hy : i / w < h := by
      rw [Nat.div_lt_iff_lt_mul hw]
      calc i < w * h := hi
        _ = h * w := Nat.mul_comm w h
    have hdecomp : i / w * w + i % w = i := by
      rw [Nat.mul_comm (i / w) w]
      exact Nat.div_add_mod i w
    rw [← hdecomp, drainPaints_perm_getElem? h1 hx hy,
      drainPaints_perm_getElem? h2 hx hy]
  · have hlen : ∀ l : List Paint, (drainPaints w (initialCanvas w h) l).length ≤ i := by
      intro l
      rw [length_drainPaints, initialCanvas, List.length_replicate]
      omega
    rw [List.getElem?_eq_none (hlen l₁), List.getElem?_eq_none (hlen l₂)]

/-- C6 witness: at width 2 and height 1, delivering the dispatch list in
its canonical order and in reverse yields the same final canvas. -/
theorem order_independence_witness :
    drainPaints 2 (initialCanvas 2 1) (dispatchPaints 2 1 () constFragment)
      = drainPaints 2 (initialCanvas 2 1)
          (dispatchPaints 2 1 () constFragment).reverse :=
  order_independence 2 1 () constFragment _ _ (List.Perm.refl _)
    ((dispatchPaints 2 1 () constFragment).reverse_perm)

/-- C7: if a `CloseRequested` event is among the events observed during an
iteration's poll step, the loop flag is `false` by the end of that poll
(the loop leaves the `Open` state within the same iteration), and the trace
contains no further `render` or `drainStep` actions afterward: the
iteration's own three steps are the entire remaining trace, whatever
schedule follows. -/
theorem close_requested_stops_loop (evs : List Event) (rest : List (List Event))
    (hmem : Event.windowCloseRequested ∈ evs) :
    pollEvents true evs = false ∧
      runIters true (evs :: rest)
        = [LoopAction.render, LoopAction.drainStep, LoopAction.pollStep] := by
  have hfalse : pollEvents true evs = false :=
    pollEvents_eq_false_of_close evs true hmem
  refine ⟨hfalse, ?_⟩
  show (LoopAction.render :: LoopAction.drainStep :: LoopAction.pollStep ::
    runIters (pollEvents true evs) rest) = _
  rw [hfalse, runIters_false]

/-- C7 witness: a single pending `CloseRequested` event stops the loop even
with two further scheduled iterations. -/
theorem close_requested_stops_loop_witness :
    pollEvents true [Event.windowCloseRequested] = false ∧
      runIters true ([Event.windowCloseRequested] :: [[], []])
        = [LoopAction.render, LoopAction.drainStep, LoopAction.pollStep] :=
  close_requested_stops_loop [Event.windowCloseRequested] [[], []]
    (List.mem_singleton.mpr rfl)

/-- C8: every setup failure — display creation, vertex buffer creation,
index buffer creation, shader program creation, or canvas buffer-texture
creation — aborts the process (the run is `none`), before the presentation
loop and hence before any render pass has been issued. -/
theorem setup_failure_aborts (ok : SetupStep → Bool)
    (schedule : List (List Event)) (s : SetupStep) (hs : ok s = false) :
    openWindowRun ok schedule = none := by
  cases s <;> simp [openWindowRun, hs]

/-- C8 witness: failing shader program creation with all other steps
succeeding aborts the run. -/
theorem setup_failure_aborts_witness :
    openWindowRun (fun s => !decide (s = SetupStep.programCreation)) [[]] = none :=
  setup_failure_aborts (fun s => !decide (s = SetupStep.programCreation)) [[]]
    SetupStep.programCreation (by decide)

/-- C9 (amended): provided width and height are at most `2 ^ 31`, every
coordinate passed to the caller-supplied fragment function is an integer
pair `(x, y)` with `0 ≤ x < width` and `0 ≤ y < height`; in particular both
components are non-negative.  (For larger dimensions the `as i32` cast
wraps and a component can be negative; see the counterexample.) -/
theorem coordinates_in_bounds {w h : Nat} (hw : w ≤ 2 ^ 31) (hh : h ≤ 2 ^ 31) :
    ∀ c ∈ dispatchCoords w h,
      0 ≤ c.1 ∧ c.1 < (w : Int) ∧ 0 ≤ c.2 ∧ c.2 < (h : Int) := by
  intro c hc
  obtain ⟨x, y, hx, hy, rfl⟩ := of_mem_dispatchCoords hc
  rw [usizeToI32_of_lt (lt_of_lt_of_le hx hw), usizeToI32_of_lt (lt_of_lt_of_le hy hh)]
  refine ⟨Int.natCast_nonneg x, ?_, Int.natCast_nonneg y, ?_⟩
  · show (x : Int) < (w : Int)
    exact_mod_cast hx
  · show (y : Int) < (h : Int)
    exact_mod_cast hy

/-- C9 witness: at width and height 2, the coordinate passed for `(1, 0)`
is in bounds. -/
theorem coordinates_in_bounds_witness :
    ((1 : Int), (0 : Int)) ∈ dispatchCoords 2 2 ∧
      0 ≤ ((1 : Int), (0 : Int)).1 ∧ ((1 : Int), (0 : Int)).1 < ((2 : Nat) : Int) ∧
      0 ≤ ((1 : Int), (0 : Int)).2 ∧ ((1 : Int), (0 : Int)).2 < ((2 : Nat) : Int) :=
  ⟨by decide,
    coordinates_in_bounds (by decide) (by decide) ((1 : Int), (0 : Int)) (by decide)⟩

/-- C9 counterexample: at width `2 ^ 31 + 1` and height 1, the dispatch
passes the coordinate `(-2 ^ 31, 0)` to the fragment function (for
`x = 2 ^ 31`, wrapped by the `as i32` cast), whose first component is
negative. -/
theorem coordinates_negative_counterexample :
    (-(2 ^ 31 : Int), (0 : Int)) ∈ dispatchCoords (2 ^ 31 + 1) 1 ∧
      (-(2 ^ 31 : Int) < 0) := by
  constructor
  · have h1 : usizeToI32 (2 ^ 31) = -(2 ^ 31 : Int) := by decide
    have h2 : usizeToI32 0 = (0 : Int) := by decide
    have hmem := @mem_dispatchCoords (2 ^ 31 + 1) 1 (2 ^ 31) 0 (by decide) (by decide)
    rw [h1, h2] at hmem
    exact hmem
  · decide

/-- C10: the stateless entry point `fragment` behaves identically to the
stateful entry point `fragment_stateful` invoked with unit shared state and
the wrapper closure ignoring the state: the produced paint instructions
coincide, and so does every canvas obtained by draining any delivered
prefix of them. -/
theorem stateless_refines_stateful (w h : Nat) (fragment : Int × Int → Rgba) :
    fragmentPaints w h fragment = dispatchPaints w h () (fun xy _ => fragment xy) ∧
      drainPaints w (initialCanvas w h) (fragmentPaints w h fragment)
        = drainPaints w (initialCanvas w h)
            (dispatchPaints w h () (fun xy _ => fragment xy)) :=
  ⟨rfl, rfl⟩

end Cpurender2

